import Mathlib

/-!
Verification development for the `haskell-vm` repository: a shallow embedding
of the G-machine style virtual machine (`src/vm.rs`) and of the type
inference engine's unification core (`src/typecheck.rs`), with theorems
settling the specification claims about them.

Modelling conventions:
* Rust `~[Node]` stacks are Lean lists with the list HEAD as the stack TOP
  (`push` is `cons`).  Rust indexes stacks from the bottom, so Rust
  `stack[k]` is `get (len - 1 - k)` of the Lean list.
* Rust `int` is 64-bit and wraps on `+ - *` (pre-1.0 Rust performed no
  overflow checks); we model values as `Int` and wrap arithmetic results
  with `wrap64`.  Division and remainder abort the task on a zero divisor
  (and on the overflowing `INT_MIN / -1`), modelled as `none`.
* `f64` payloads are kept abstract: the whole VM is parametric in a type `F`
  with a `FloatOps F` structure of operations, so every theorem holds for
  any float semantics (IEEE-754 included).  Concrete witnesses instantiate
  `F := ℚ`.
* Runtime aborts (`fail!`, failed `assert!`, out-of-bounds indexing,
  `pop` on an empty vector) are modelled as `none`.
* Recursion in `execute` (the `Eval` and `Unwind` instructions spawn
  sub-frames, and jumps/`Unwind` can loop) is modelled with explicit fuel,
  decreasing at every dispatched instruction.  All definitions are
  structural, so closed executions evaluate by `rfl`.
-/

namespace GM

/-- Operations on the abstract `f64` carrier. `ofInt`/`toInt` are the
`as f64` / `as int` casts used by `IntToDouble` / `DoubleToInt`. -/
class FloatOps (F : Type) where
  fadd : F → F → F
  fsub : F → F → F
  fmul : F → F → F
  fdiv : F → F → F
  frem : F → F → F
  feq : F → F → Bool
  flt : F → F → Bool
  fle : F → F → Bool
  fgt : F → F → Bool
  fge : F → F → Bool
  ofInt : Int → F
  toInt : F → Int

/-- One arbitrary executable instantiation of `FloatOps`, with exact rational
arithmetic, used for concrete witnesses (no theorem depends on the float
payload semantics). -/
instance : FloatOps ℚ where
  fadd := (· + ·)
  fsub := (· - ·)
  fmul := (· * ·)
  fdiv := (· / ·)
  frem := fun a b => a - b * (a / b)
  feq := fun a b => a == b
  flt := fun a b => decide (a < b)
  fle := fun a b => decide (a ≤ b)
  fgt := fun a b => decide (b < a)
  fge := fun a b => decide (b ≤ a)
  ofInt := fun i => (i : ℚ)
  toInt := fun q => q.floor

/-- `2^63`, for two's-complement wrapping of 64-bit `int`. -/
def twoP63 : Int := 9223372036854775808

/-- Smallest 64-bit `int`. -/
def intMin : Int := -twoP63

/-- Two's-complement wrap of an integer result into the 64-bit `int` range,
as pre-1.0 Rust arithmetic did. -/
def wrap64 (z : Int) : Int := (z + twoP63) % (2 * twoP63) - twoP63

/-- The VM instruction set.  The `Instruction` enum itself lives in
`compiler.rs`, which is not part of `src/`; the variants and their payload
types are reconstructed from the `execute` match in `src/vm.rs:142-333` and
from spec §4.2 ("Instruction set").  `PushFloat` carries an `F` payload. -/
inductive Instruction (F : Type) where
  | add | sub | multiply | divide | remainder
  | intEQ | intLT | intLE | intGT | intGE
  | doubleAdd | doubleSub | doubleMultiply | doubleDivide | doubleRemainder
  | doubleEQ | doubleLT | doubleLE | doubleGT | doubleGE
  | intToDouble | doubleToInt
  | pushInt (v : Int)
  | pushFloat (v : F)
  | pushChar (c : Char)
  | push (n : Nat)
  | pushGlobal (n : Nat)
  | mkap
  | eval
  | pop (n : Nat)
  | update (n : Nat)
  | unwind
  | slide (n : Nat)
  | split (n : Nat)
  | pack (tag : Nat) (arity : Nat)
  | jumpFalse (addr : Nat)
  | caseJump (tag : Nat)
  | jump (tgt : Nat)
  | pushDictionary (n : Nat)
  | pushDictionaryMember (n : Nat)
  deriving DecidableEq

/-- A super-combinator: `compiler.rs`'s `SuperCombinator` as used by
`src/vm.rs` (`arity`, `name`, `assembly_id`, `instructions`) and spec §4.3. -/
structure SuperCombinator (F : Type) where
  arity : Nat
  name : String
  assembly_id : Nat
  instructions : List (Instruction F)

/-- Heap node, from `Node_` in `src/vm.rs:11-21`.  `Rc` sharing is of
immutable data only (stack slots are reassigned, nodes never mutated), so a
tree model is faithful.  A `Combinator` node holds the super-combinator it
references. -/
inductive Node (F : Type) where
  | app (f a : Node F)
  | int (i : Int)
  | float (q : F)
  | char (c : Char)
  | comb (c : SuperCombinator F)
  | ind (n : Node F)
  | constr (tag : Nat) (fields : List (Node F))
  | dict (d : List Nat)

/-- An `Assembly` (from `compiler.rs`, reconstructed from its uses in
`src/vm.rs` and spec §2/§4.3). -/
structure Assembly (F : Type) where
  superCombinators : List (SuperCombinator F)
  instance_dictionaries : List (List Nat)

/-- The VM state that `execute` reads (`src/vm.rs:101-105`; the unused `heap`
field is omitted). -/
structure VMM (F : Type) where
  assembly : List (Assembly F)
  globals : List (Nat × Nat)

/-- The operand stack; head of the list = top of the stack. -/
abbrev Stack (F : Type) := List (Node F)

/-- Rust `stack[n]` (indexing from the BOTTOM of the stack); aborts
(`none`) when out of bounds. -/
def getBottom {α : Type} (st : List α) (n : Nat) : Option α :=
  if n < st.length then st.get? (st.length - 1 - n) else none

/-- Pop `n` values off the top, returning them in pop order together with
the remaining stack; `none` if the stack runs dry (Rust `pop` aborts on an
empty vector).  This is `std::vec::from_fn(n, |_| stack.pop())`. -/
def popN {α : Type} : Nat → List α → Option (List α × List α)
  | 0, st => some ([], st)
  | _ + 1, [] => none
  | n + 1, x :: rest =>
    match popN n rest with
    | some (xs, st') => some (x :: xs, st')
    | none => none

/-- `while stack.len() > 1 { stack.pop(); }` — keep only the bottom entry. -/
def popToOne {α : Type} : List α → List α
  | [] => []
  | [x] => [x]
  | _ :: rest => popToOne rest

/-- Collect the arguments of the first `n` application nodes of the spine
below the combinator (`src/vm.rs:229-239`: each of those stack slots is
rewritten to its `Application`'s argument and then copied into the new
frame's stack; a non-`Application` slot aborts with "Expected Application").
Returns the arguments in spine order (innermost first). -/
def getArgs {F : Type} : Nat → Stack F → Option (List (Node F))
  | 0, _ => some []
  | n + 1, Node.app _ a :: rest =>
    match getArgs n rest with
    | some args => some (a :: args)
    | none => none
  | _ + 1, _ => none

/-- `primitive_int` from `src/vm.rs:341-348`: pop two nodes, apply `f` when
both are `Int` literals, abort otherwise.  `f` returns an `Option` because
the division closures can themselves abort. -/
def primitive_int {F : Type} (stack : Stack F) (f : Int → Int → Option (Node F)) :
    Option (Stack F) :=
  match stack with
  | l :: r :: rest =>
    match l, r with
    | Node.int lhs, Node.int rhs =>
      match f lhs rhs with
      | some n => some (n :: rest)
      | none => none
    | _, _ => none
  | _ => none

/-- `primitive_float` from `src/vm.rs:349-356`. -/
def primitive_float {F : Type} (stack : Stack F) (f : F → F → Node F) :
    Option (Stack F) :=
  match stack with
  | l :: r :: rest =>
    match l, r with
    | Node.float lhs, Node.float rhs => some (f lhs rhs :: rest)
    | _, _ => none
  | _ => none

/-- `primitive` from `src/vm.rs:357-359`. -/
def primitive {F : Type} (stack : Stack F) (f : Int → Int → Option Int) :
    Option (Stack F) :=
  primitive_int stack (fun l r =>
    match f l r with
    | some v => some (Node.int v)
    | none => none)

/-- The Rust comparison pattern `if cond { Constructor(0, ~[]) } else
{ Constructor(1, ~[]) }` (tag 0 = True, tag 1 = False). -/
def boolConstr {F : Type} (b : Bool) : Node F :=
  if b then Node.constr 0 [] else Node.constr 1 []

/-- Rust `l / r` on `int`: aborts on a zero divisor and on the overflowing
`INT_MIN / -1`; otherwise truncated division. -/
def intDiv (l r : Int) : Option Int :=
  if r = 0 ∨ (l = intMin ∧ r = -1) then none else some (Int.tdiv l r)

/-- Rust `l % r` on `int`: same abort conditions, truncated remainder. -/
def intRem (l r : Int) : Option Int :=
  if r = 0 ∨ (l = intMin ∧ r = -1) then none else some (Int.tmod l r)

/-- One step of every instruction that neither jumps nor spawns a sub-frame:
the corresponding arm of the `execute` match (`src/vm.rs:142-333`) minus the
shared `i += 1` of the interpreter loop.  `none` models a runtime abort. -/
def simpleStep {F : Type} [FloatOps F] (vm : VMM F) (aid : Nat) :
    Instruction F → Stack F → Option (Stack F)
  | .add, stack => primitive stack (fun l r => some (wrap64 (l + r)))
  | .sub, stack => primitive stack (fun l r => some (wrap64 (l - r)))
  | .multiply, stack => primitive stack (fun l r => some (wrap64 (l * r)))
  | .divide, stack => primitive stack intDiv
  | .remainder, stack => primitive stack intRem
  | .intEQ, stack => primitive_int stack (fun l r => some (boolConstr (l = r)))
  | .intLT, stack => primitive_int stack (fun l r => some (boolConstr (l < r)))
  | .intLE, stack => primitive_int stack (fun l r => some (boolConstr (l ≤ r)))
  | .intGT, stack => primitive_int stack (fun l r => some (boolConstr (r < l)))
  | .intGE, stack => primitive_int stack (fun l r => some (boolConstr (r ≤ l)))
  | .doubleAdd, stack => primitive_float stack (fun l r => Node.float (FloatOps.fadd l r))
  | .doubleSub, stack => primitive_float stack (fun l r => Node.float (FloatOps.fsub l r))
  | .doubleMultiply, stack => primitive_float stack (fun l r => Node.float (FloatOps.fmul l r))
  | .doubleDivide, stack => primitive_float stack (fun l r => Node.float (FloatOps.fdiv l r))
  | .doubleRemainder, stack => primitive_float stack (fun l r => Node.float (FloatOps.frem l r))
  | .doubleEQ, stack => primitive_float stack (fun l r => boolConstr (FloatOps.feq l r))
  | .doubleLT, stack => primitive_float stack (fun l r => boolConstr (FloatOps.flt l r))
  | .doubleLE, stack => primitive_float stack (fun l r => boolConstr (FloatOps.fle l r))
  | .doubleGT, stack => primitive_float stack (fun l r => boolConstr (FloatOps.fgt l r))
  | .doubleGE, stack => primitive_float stack (fun l r => boolConstr (FloatOps.fge l r))
  | .intToDouble, stack =>
    match stack with
    | Node.int i :: rest => some (Node.float (FloatOps.ofInt i) :: rest)
    | _ => none
  | .doubleToInt, stack =>
    match stack with
    | Node.float f :: rest => some (Node.int (FloatOps.toInt f) :: rest)
    | _ => none
  | .pushInt v, stack => some (Node.int v :: stack)
  | .pushFloat v, stack => some (Node.float v :: stack)
  | .pushChar c, stack => some (Node.char c :: stack)
  | .push n, stack =>
    match getBottom stack n with
    | some x => some (x :: stack)
    | none => none
  | .pushGlobal n, stack =>
    match vm.globals.get? n with
    | some (ai, idx) =>
      match vm.assembly.get? ai with
      | some asm =>
        match asm.superCombinators.get? idx with
        | some sc => some (Node.comb sc :: stack)
        | none => none
      | none => none
    | none => none
  | .mkap, stack =>
    match stack with
    | func :: arg :: rest => some (Node.app func arg :: rest)
    | _ => none
  | .pop n, stack => if n ≤ stack.length then some (stack.drop n) else none
  | .update n, stack =>
    match stack with
    | x :: _ =>
      if n < stack.length then
        some (stack.set (stack.length - 1 - n) (Node.ind x))
      else none
    | [] => none
  | .slide n, stack =>
    match stack with
    | top :: rest => if n ≤ rest.length then some (top :: rest.drop n) else none
    | [] => none
  | .split _, stack =>
    match stack with
    | Node.constr _ fields :: rest =>
      some (fields.foldl (fun s f => f :: s) rest)
    | _ => none
  | .pack tag arity, stack =>
    match popN arity stack with
    | some (args, rest) => some (Node.constr tag args :: rest)
    | none => none
  | .pushDictionary n, stack =>
    match vm.assembly.get? aid with
    | some asm =>
      match asm.instance_dictionaries.get? n with
      | some d => some (Node.dict d :: stack)
      | none => none
    | none => none
  | .pushDictionaryMember n, stack =>
    match getBottom stack 0 with
    | some (Node.dict d) =>
      match d.get? n with
      | some gi =>
        match vm.globals.get? gi with
        | some (ai, idx) =>
          match vm.assembly.get? ai with
          | some asm =>
            match asm.superCombinators.get? idx with
            | some sc => some (Node.comb sc :: stack)
            | none => none
          | none => none
        | none => none
      | none => none
    | _ => none
  -- the control instructions are dispatched directly in `exec`
  | .eval, _ => none
  | .unwind, _ => none
  | .jumpFalse _, _ => none
  | .caseJump _, _ => none
  | .jump _, _ => none

/-- The interpreter loop `VM::execute` (`src/vm.rs:132-338`), with explicit
fuel (one unit per dispatched instruction; sub-frames run on the remaining
fuel).  In the `Unwind` combinator-call case, the in-place rewriting of the
spine slots followed by popping `arity + 1` entries is collapsed into
`getArgs` plus `List.drop`, since the rewritten slots are popped unread.

Net instruction-pointer effects: Rust `uint` arithmetic wraps, so
`i = addr - 1` (or `i -= 1`) followed by the loop's `i += 1` lands exactly
on `addr` (resp. back on `i`); the embedding writes the net target. -/
def exec {F : Type} [FloatOps F] :
    Nat → VMM F → Nat → List (Instruction F) → Nat → Stack F → Option (Stack F)
  | 0, _, _, code, i, stack =>
    match code[i]? with
    | none => some stack
    | some _ => none
  | fuel + 1, vm, aid, code, i, stack =>
    match code[i]? with
    | none => some stack
    | some ins =>
      match ins with
      | .eval =>
        match stack with
        | [] => none
        | t :: rest =>
          match exec fuel vm aid [Instruction.unwind] 0 [t] with
          | some (x :: _) => exec fuel vm aid code (i + 1) (x :: rest)
          | _ => none
      | .unwind =>
        match stack with
        | [] => none
        | x :: rest =>
          match x with
          | Node.app f _ => exec fuel vm aid code i (f :: x :: rest)
          | Node.ind n => exec fuel vm aid code i (n :: rest)
          | Node.comb c =>
            if rest.length < c.arity then
              exec fuel vm aid code (i + 1) (popToOne (x :: rest))
            else
              match getArgs c.arity rest with
              | none => none
              | some args =>
                match exec fuel vm c.assembly_id c.instructions 0 args.reverse with
                | some [res] => exec fuel vm aid code i (res :: rest.drop c.arity)
                | _ => none
          | _ => exec fuel vm aid code (i + 1) (x :: rest)
      | .jump t => exec fuel vm aid code t stack
      | .jumpFalse t =>
        match stack with
        | [] => none
        | x :: rest =>
          match x with
          | Node.constr 1 _ => exec fuel vm aid code t rest
          | _ => exec fuel vm aid code (i + 1) rest
      | .caseJump tag =>
        match stack with
        | [] => none
        | x :: rest =>
          match x with
          | Node.constr ctag _ =>
            if tag = ctag then exec fuel vm aid code (i + 2) (x :: rest)
            else exec fuel vm aid code (i + 1) rest
          | _ => none
      | _ =>
        match simpleStep vm aid ins stack with
        | some s2 => exec fuel vm aid code (i + 1) s2
        | none => none

/-- Empty VM (no assemblies, no globals), enough for all instruction-level
reasoning that does not push globals or dictionaries. -/
def vm0 : VMM ℚ := { assembly := [], globals := [] }

example : exec 3 vm0 0 [Instruction.pushInt 2, Instruction.pushInt 3, Instruction.add] 0 []
    = some [Node.int 5] := rfl

example : exec 2 vm0 0 [Instruction.split 2, Instruction.pack 7 2] 0
      [Node.constr 7 [Node.int 1, Node.int 2]]
    = some [Node.constr 7 [Node.int 2, Node.int 1]] := rfl

example : exec 2 vm0 0 [Instruction.update 0] 0 [Node.int 1, Node.int 2]
    = some [Node.int 1, Node.ind (Node.int 1)] := rfl

example : exec 5 vm0 0 [Instruction.unwind] 0
      [Node.app (Node.app (Node.int 1) (Node.int 2)) (Node.int 3)]
    = some [Node.int 1, Node.app (Node.int 1) (Node.int 2),
        Node.app (Node.app (Node.int 1) (Node.int 2)) (Node.int 3)] := rfl

end GM

namespace TC

/-!
Shallow embedding of the unification core of `src/typecheck.rs`.

* Rust `Type` is `struct Type { typ: Type_, types: ~[Type] }` with
  `Type_ = TypeVariable { id: int } | TypeOperator { name: ~str }`: a head
  plus an ordered argument list, modelled by `Ty`.
* The Rust code mutates `lhs`/`rhs`, the substitution and the environment's
  constraint map in place; the embedding threads an explicit `TcState` and
  returns the rewritten types.
* `HashMap`s are modelled as association lists with `HashMap::insert`
  (overwrite), `pop` (remove) and `find_or_insert` semantics.  Iteration
  order of a Rust `HashMap` is unspecified; the only iteration modelled
  (`unify_location`'s closing pass over `subs.subs`) is taken in list
  order, and no theorem below depends on that order.
* The embedding covers a `TypeEnvironment` with no imported assemblies
  (`assemblies: ~[]`, as produced by `TypeEnvironment::new`), so
  `has_instance` (`src/typecheck.rs:423-439`) reduces to its first loop
  over `env.instances`; the cross-assembly branch is never entered.
* Recursion over types (whose argument vectors make `Ty` a nested
  inductive) uses explicit fuel so that all functions are structural and
  closed runs evaluate by `rfl`.
-/

/-- Head of a type: `Type_` from `module.rs` as used by `typecheck.rs`
(`TypeVariable` carries an `int` id, `TypeOperator` a name). -/
inductive TyHead where
  | var (id : Int)
  | op (name : String)
  deriving DecidableEq

/-- A type: head plus ordered argument list (`Type { typ, types }`). -/
inductive Ty where
  | mk (hd : TyHead) (args : List Ty)

/-- Head accessor (`typ.typ`). -/
def Ty.hd : Ty → TyHead
  | .mk h _ => h

/-- Argument accessor (`typ.types`). -/
def Ty.args : Ty → List Ty
  | .mk _ a => a

/-- Constraint map `HashMap<TypeVariable, ~[~str]>`. -/
abbrev CMap := List (Int × List String)

/-- Substitution map `HashMap<TypeVariable, Type>`. -/
abbrev Subs := List (Int × Ty)

/-- Association-list lookup (`HashMap::find`). -/
def alFind {α : Type} : List (Int × α) → Int → Option α
  | [], _ => none
  | (k', v) :: rest, k => if k' = k then some v else alFind rest k

/-- Association-list insert with overwrite (`HashMap::insert`). -/
def alInsert {α : Type} : List (Int × α) → Int → α → List (Int × α)
  | [], k, v => [(k, v)]
  | (k', v') :: rest, k, v =>
    if k' = k then (k, v) :: rest else (k', v') :: alInsert rest k v

/-- Association-list removal returning the removed value (`HashMap::pop`). -/
def alPop {α : Type} : List (Int × α) → Int → Option (α × List (Int × α))
  | [], _ => none
  | (k', v) :: rest, k =>
    if k' = k then some (v, rest)
    else
      match alPop rest k with
      | some (v2, rest2) => some (v2, (k', v) :: rest2)
      | none => none

/-- The mutable state threaded through unification: the environment's
constraint map and instance list (`TypeEnvironment.constraints`,
`TypeEnvironment.instances`) and the `Substitution`'s two maps
(`subs`, `constraints`, `src/typecheck.rs:94-98`). -/
structure TcState where
  envConstraints : CMap
  instances : List (String × Ty)
  subs : Subs
  subsConstraints : CMap

/-- `update_constraints` (`src/typecheck.rs:737-754`): when an occurrence of
variable `old` is rewritten to `new`, and `new` is (headed by) a variable,
the constraints recorded for `old` in the substitution's constraint map are
appended (without duplicates) to the environment constraints of that
variable.  `find_or_insert` creates the target entry even when nothing is
appended. -/
def update_constraints (cs : CMap) (old : Int) (new : Ty) (subsCs : CMap) : CMap :=
  match new.hd with
  | TyHead.var nv =>
    match alFind subsCs old with
    | some scs =>
      let cur := (alFind cs nv).getD []
      let merged := scs.foldl (fun acc c => if acc.contains c then acc else acc ++ [c]) cur
      alInsert cs nv merged
    | none => cs
  | TyHead.op _ => cs

/-- `replace` (`src/typecheck.rs:757-788`) lifted to a list of types,
threading the environment constraint map from left to right.  For each
type: if its head is a variable bound in `sb`, rewrite it (keeping the
original argument vector when it is non-empty — the higher-kinded case),
calling `update_constraints`; then recurse into the (new) arguments.
`fuel` bounds the recursion depth; exhaustion leaves types unchanged. -/
def replaceL : Nat → CMap → List Ty → Subs → CMap → CMap × List Ty
  | 0, cs, ts, _, _ => (cs, ts)
  | _ + 1, cs, [], _, _ => (cs, [])
  | fuel + 1, cs, Ty.mk hd args :: rest, sb, scs =>
    let step : CMap × Ty :=
      match hd with
      | TyHead.var id =>
        match alFind sb id with
        | some new =>
          (update_constraints cs id new scs,
           if args.length > 0 then Ty.mk new.hd args else new)
        | none => (cs, Ty.mk hd args)
      | TyHead.op _ => (cs, Ty.mk hd args)
    match step with
    | (cs1, Ty.mk hd1 args1) =>
      match replaceL fuel cs1 args1 sb scs with
      | (cs2, args2) =>
        match replaceL fuel cs2 rest sb scs with
        | (cs3, rest2) => (cs3, Ty.mk hd1 args2 :: rest2)

/-- `replace` on a single type. -/
def replaceT (fuel : Nat) (cs : CMap) (t : Ty) (sb : Subs) (scs : CMap) :
    CMap × Ty :=
  match replaceL fuel cs [t] sb scs with
  | (cs1, t1 :: _) => (cs1, t1)
  | (cs1, []) => (cs1, t)

/-- `occurs` (`src/typecheck.rs:791-796`) on a list of types, fuelled. -/
def occursF : Nat → Int → List Ty → Bool
  | 0, _, _ => false
  | _ + 1, _, [] => false
  | fuel + 1, v, Ty.mk hd args :: rest =>
    (match hd with
     | TyHead.var w => w = v
     | TyHead.op _ => false)
    || occursF fuel v args || occursF fuel v rest

/-- `TypeEnvironment::has_instance` (`src/typecheck.rs:423-439`) for an
environment with no imported assemblies: scan `env.instances` comparing the
class name and the HEADS of the types (`typ.typ == searched_type.typ`
compares only the `Type_` heads). -/
def has_instance (st : TcState) (c : String) (searched : Ty) : Bool :=
  st.instances.any (fun p => p.1 = c && p.2.hd = searched.hd)

/-- The constraint check closing the Var–Op case of `unify_`
(`src/typecheck.rs:891-910`): every class constraint recorded for `lid`
must have an instance for the operator type, with the built-in escapes for
`Num` on `Int`/`Double` and `Fractional` on `Double` (nullary only). -/
def constraintsOK (st : TcState) (lid : Int) (rhs : Ty) (rname : String) : Bool :=
  match alFind st.envConstraints lid with
  | some cs =>
    cs.all (fun c =>
      has_instance st c rhs
      || (c = "Num" && (rname = "Int" || rname = "Double") && rhs.args.length = 0)
      || (c = "Fractional" && rname = "Double" && rhs.args.length = 0))
  | none => true

/-- `unify_` (`src/typecheck.rs:837-919`) lifted to parallel lists of types,
which also models the argument-wise loops of the Op–Op and Var–Op cases
(unify position `i`, then `replace` the types at position `i+1` before the
next step).  The top-level call is the singleton case.  Failures
(`type_error` + `fail!`) are `none`; fuel exhaustion is also `none`. -/
def unifyL : Nat → TcState → List Ty → List Ty → Option (TcState × List Ty × List Ty)
  | 0, _, _, _ => none
  | _ + 1, st, [], [] => some (st, [], [])
  | fuel + 1, st, l :: ls, r :: rs =>
    let pairResult : Option (TcState × Ty × Ty) :=
      match l, r with
      | Ty.mk lh largs, Ty.mk rh rargs =>
        match lh, rh with
        | TyHead.var lid, TyHead.var rid =>
          if lid = rid then some (st, l, r)
          else
            -- bind lid to a fresh representation of rid (with the current
            -- substitution applied), moving lid's environment constraints
            -- into the substitution's constraint map
            let t0 := Ty.mk (TyHead.var rid) []
            let res := replaceT fuel st.envConstraints t0 st.subs st.subsConstraints
            let sb1 := alInsert st.subs lid res.2
            match alPop res.1 lid with
            | some (v, cs2) =>
              let st2 : TcState :=
                { st with
                  envConstraints := cs2
                  subs := sb1
                  subsConstraints := alInsert st.subsConstraints lid v }
              some (st2, l, r)
            | none =>
              some ({ st with envConstraints := res.1, subs := sb1 }, l, r)
        | TyHead.op ln, TyHead.op rn =>
          if ln ≠ rn ∨ largs.length ≠ rargs.length then none
          else
            match unifyL fuel st largs rargs with
            | some (st2, la, ra) => some (st2, Ty.mk lh la, Ty.mk rh ra)
            | none => none
        | TyHead.var lid, TyHead.op rn =>
          if occursF fuel lid [r] then none
          else if largs.length = 0 then
            let res := replaceT fuel st.envConstraints r st.subs st.subsConstraints
            let st1 : TcState :=
              { st with envConstraints := res.1, subs := alInsert st.subs lid res.2 }
            if constraintsOK st1 lid r rn then some (st1, l, r) else none
          else if largs.length ≠ rargs.length then none
          else
            let x0 := Ty.mk (TyHead.op rn) []
            let res := replaceT fuel st.envConstraints x0 st.subs st.subsConstraints
            let st1 : TcState :=
              { st with envConstraints := res.1, subs := alInsert st.subs lid res.2 }
            match unifyL fuel st1 largs rargs with
            | some (st2, la, ra) =>
              let l2 := Ty.mk lh la
              let r2 := Ty.mk rh ra
              if constraintsOK st2 lid r2 rn then some (st2, l2, r2) else none
            | none => none
        | TyHead.op _, TyHead.var _ =>
          -- `unified = false`: retry with the operands swapped
          match unifyL fuel st [r] [l] with
          | some (st2, r2 :: _, l2 :: _) => some (st2, l2, r2)
          | some (st2, _, _) => some (st2, l, r)
          | none => none
    match pairResult with
    | none => none
    | some (st1, l1, r1) =>
      match ls, rs with
      | [], [] => some (st1, [l1], [r1])
      | l2 :: lrest, r2 :: rrest =>
        let resA := replaceT fuel st1.envConstraints l2 st1.subs st1.subsConstraints
        let resB := replaceT fuel resA.1 r2 st1.subs st1.subsConstraints
        let st2 : TcState := { st1 with envConstraints := resB.1 }
        match unifyL fuel st2 (resA.2 :: lrest) (resB.2 :: rrest) with
        | some (st3, ls2, rs2) => some (st3, l1 :: ls2, r1 :: rs2)
        | none => none
      | _, _ => none
  | _ + 1, _, _, _ => none

/-- `unify_` on a single pair of types. -/
def unifyT (fuel : Nat) (st : TcState) (l r : Ty) : Option (TcState × Ty × Ty) :=
  match unifyL fuel st [l] [r] with
  | some (st2, l2 :: _, r2 :: _) => some (st2, l2, r2)
  | some (st2, _, _) => some (st2, l, r)
  | none => none

/-- `unify_location` (`src/typecheck.rs:825-835`): run `unify_`, then apply
the accumulated substitution once to every type stored in `subs.subs`
(against a snapshot of the substitution).  The map iteration is taken in
association-list order. -/
def unifyLoc (fuel : Nat) (st : TcState) (l r : Ty) : Option (TcState × Ty × Ty) :=
  match unifyT fuel st l r with
  | none => none
  | some (st1, l1, r1) =>
    let folded := st1.subs.foldl
      (fun (acc : CMap × Subs) kv =>
        let res := replaceT fuel acc.1 kv.2 st1.subs st1.subsConstraints
        (res.1, acc.2 ++ [(kv.1, res.2)]))
      (st1.envConstraints, [])
    some ({ st1 with envConstraints := folded.1, subs := folded.2 }, l1, r1)

/-- Shorthand for a nullary type variable. -/
def tv (id : Int) : Ty := Ty.mk (TyHead.var id) []

/-- Shorthand for a type operator application. -/
def top (name : String) (args : List Ty) : Ty := Ty.mk (TyHead.op name) args

/-- An environment whose constraint map carries class `"C"` (with no
registered instances) on type variable 2, with empty substitution. -/
def stC : TcState :=
  { envConstraints := [(2, ["C"])], instances := [], subs := [], subsConstraints := [] }

example : (unifyT 30 stC (top "(,)" [tv 1, tv 1]) (top "(,)" [tv 2, top "Int" []])).isSome
    = false := rfl

example : (unifyT 30 stC (top "(,)" [tv 2, top "Int" []]) (top "(,)" [tv 1, tv 1])).isSome
    = true := rfl

end TC

namespace GM

/-- Pushing a list of nodes one by one (the `Split` field loop) reverses it
onto the stack. -/
lemma foldl_push {α : Type} (xs : List α) (acc : List α) :
    xs.foldl (fun s f => f :: s) acc = xs.reverse ++ acc := by
  induction xs generalizing acc with
  | nil => rfl
  | cons x xs ih => simp [List.foldl, ih]

/-- Popping exactly the length of a prefix returns that prefix in order. -/
lemma popN_append {α : Type} (xs rest : List α) :
    popN xs.length (xs ++ rest) = some (xs, rest) := by
  induction xs with
  | nil => rfl
  | cons x xs ih => simp [popN, ih]

/-- `popToOne` keeps exactly the bottom (last) entry of a non-empty stack. -/
lemma popToOne_getLast {α : Type} (x : α) (rest : List α) :
    popToOne (x :: rest) = [(x :: rest).getLast (List.cons_ne_nil _ _)] := by
  induction rest generalizing x with
  | nil => rfl
  | cons y ys ih =>
    rw [show popToOne (x :: y :: ys) = popToOne (y :: ys) from rfl, ih]
    rw [List.getLast_cons (List.cons_ne_nil _ _)]

/-- A frame whose instruction pointer has run off the end returns its stack
unchanged (the `while i < code.len()` loop does not run). -/
lemma exec_out {F : Type} [FloatOps F] (fuel : Nat) (vm : VMM F) (aid : Nat)
    (code : List (Instruction F)) (i : Nat) (stack : Stack F)
    (h : code[i]? = none) :
    exec fuel vm aid code i stack = some stack := by
  cases fuel <;> simp [exec, h]

/-- The instructions dispatched through `simpleStep` (everything except
`Eval`, `Unwind`, `Jump`, `JumpFalse`, `CaseJump`). -/
def notControl {F : Type} : Instruction F → Bool
  | .eval => false
  | .unwind => false
  | .jump _ => false
  | .jumpFalse _ => false
  | .caseJump _ => false
  | _ => true

/-- Dispatching a non-control instruction performs its `simpleStep` stack
effect and continues at `i + 1` (or aborts). -/
lemma exec_step_simple {F : Type} [FloatOps F] (fuel : Nat) (vm : VMM F) (aid : Nat)
    (code : List (Instruction F)) (i : Nat) (stack : Stack F) (ins : Instruction F)
    (hc : code[i]? = some ins) (hs : notControl ins = true) :
    exec (fuel + 1) vm aid code i stack =
      match simpleStep vm aid ins stack with
      | some s2 => exec fuel vm aid code (i + 1) s2
      | none => none := by
  cases ins <;> simp only [notControl] at hs <;>
    first
    | exact Bool.noConfusion hs
    | simp only [exec, hc]

/-- Specialisation of `exec_step_simple` when the stack effect succeeds. -/
lemma exec_step_some {F : Type} [FloatOps F] (fuel : Nat) (vm : VMM F) (aid : Nat)
    (code : List (Instruction F)) (i : Nat) (stack : Stack F) (ins : Instruction F)
    (s2 : Stack F) (hc : code[i]? = some ins) (hs : notControl ins = true)
    (hstep : simpleStep vm aid ins stack = some s2) :
    exec (fuel + 1) vm aid code i stack = exec fuel vm aid code (i + 1) s2 := by
  rw [exec_step_simple fuel vm aid code i stack ins hc hs, hstep]

/-- A single non-control instruction as a one-instruction frame computes
exactly its `simpleStep` effect. -/
lemma exec_single {F : Type} [FloatOps F] (fuel : Nat) (vm : VMM F) (aid : Nat)
    (ins : Instruction F) (stack : Stack F) (hs : notControl ins = true) :
    exec (fuel + 1) vm aid [ins] 0 stack = simpleStep vm aid ins stack := by
  rw [exec_step_simple fuel vm aid [ins] 0 stack ins rfl hs]
  cases h : simpleStep vm aid ins stack with
  | none => rfl
  | some s2 => exact exec_out fuel vm aid [ins] 1 s2 rfl

/-- C1, counterexample: on `Constructor(7, [1, 2])`, `Split` followed by
`Pack(7, 2)` yields `Constructor(7, [2, 1])` — the fields come back in
reverse order (`Split` pushes the fields left to right so the last field
ends on top, and `Pack` collects popped nodes first-popped-first), so the
reconstructed node is NOT equal to the original as the claim states. -/
theorem claim1_split_pack_cex :
    exec 2 vm0 0 [Instruction.split 2, Instruction.pack 7 2] 0
        [Node.constr 7 [Node.int 1, Node.int 2]]
      = some [Node.constr 7 [Node.int 2, Node.int 1]]
    ∧ exec 2 vm0 0 [Instruction.split 2, Instruction.pack 7 2] 0
        [Node.constr 7 [Node.int 1, Node.int 2]]
      ≠ some [Node.constr 7 [Node.int 1, Node.int 2]] := by
  refine ⟨rfl, ?_⟩
  intro h
  rw [show exec 2 vm0 0 [Instruction.split 2, Instruction.pack 7 2] 0
      [Node.constr 7 [Node.int 1, Node.int 2]]
    = some [Node.constr 7 [Node.int 2, Node.int 1]] from rfl] at h
  simp at h

/-- C1 (amended): for every `Constructor(t, xs)` in WHNF on top of the
stack, `Split` followed by `Pack(t, |xs|)` reconstructs a `Constructor`
with the same tag `t` and the fields of `xs` in REVERSE order, leaving the
rest of the stack unchanged. -/
theorem claim1_split_pack_reverses {F : Type} [FloatOps F] (fuel : Nat) (vm : VMM F)
    (aid n t : Nat) (xs rest : List (Node F)) :
    exec (fuel + 2) vm aid [Instruction.split n, Instruction.pack t xs.length] 0
        (Node.constr t xs :: rest)
      = some (Node.constr t xs.reverse :: rest) := by
  have hsplit : simpleStep vm aid (Instruction.split n) (Node.constr t xs :: rest)
      = some (xs.reverse ++ rest) := by
    simp [simpleStep, foldl_push]
  have hp : popN xs.length (xs.reverse ++ rest) = some (xs.reverse, rest) := by
    have := popN_append xs.reverse rest
    rwa [List.length_reverse] at this
  have hpack : simpleStep vm aid (Instruction.pack t xs.length) (xs.reverse ++ rest)
      = some (Node.constr t xs.reverse :: rest) := by
    simp [simpleStep, hp]
  rw [exec_step_some (fuel + 1) vm aid
    [Instruction.split n, Instruction.pack t xs.length] 0 _ (Instruction.split n) _
    rfl rfl hsplit]
  rw [exec_step_some fuel vm aid
    [Instruction.split n, Instruction.pack t xs.length] (0 + 1) _
    (Instruction.pack t xs.length) _ rfl rfl hpack]
  exact exec_out fuel vm aid _ (0 + 1 + 1) _ rfl

/-- C2, counterexample: `Update(0)` on the two-element stack
`[Int 1, Int 2]` (top first).  The claim says the entry at depth 0 from the
top — `stack[len-1-0]`, here the `Int 1` on top — is replaced, giving
`[Ind(Int 1), Int 2]`; the code instead replaces `stack[0]`, the BOTTOM
entry, giving `[Int 1, Ind(Int 1)]`. -/
theorem claim2_update_cex :
    exec 2 vm0 0 [Instruction.update 0] 0 [Node.int 1, Node.int 2]
      = some [Node.int 1, Node.ind (Node.int 1)]
    ∧ exec 2 vm0 0 [Instruction.update 0] 0 [Node.int 1, Node.int 2]
      ≠ some [Node.ind (Node.int 1), Node.int 2] := by
  refine ⟨rfl, ?_⟩
  intro h
  rw [show exec 2 vm0 0 [Instruction.update 0] 0 [Node.int 1, Node.int 2]
      = some [Node.int 1, Node.ind (Node.int 1)] from rfl] at h
  simp at h

/-- C2 (amended): for `n < stack.len`, `Update(n)` replaces `stack[n]` —
the entry at depth `n` from the BOTTOM — with an `Indirection` to the
current top of the stack, leaving every other entry and the stack length
unchanged (the stack is the Lean list with its head as top, so `stack[n]`
is position `len - 1 - n` of the list, and `List.set` touches nothing
else). -/
theorem claim2_update_indexes_from_bottom {F : Type} [FloatOps F] (fuel : Nat)
    (vm : VMM F) (aid n : Nat) (x : Node F) (rest : Stack F)
    (h : n < (x :: rest).length) :
    exec (fuel + 2) vm aid [Instruction.update n] 0 (x :: rest)
      = some ((x :: rest).set ((x :: rest).length - 1 - n) (Node.ind x)) := by
  have h2 : n < rest.length + 1 := by simpa using h
  have hstep : simpleStep vm aid (Instruction.update n) (x :: rest)
      = some ((x :: rest).set ((x :: rest).length - 1 - n) (Node.ind x)) := by
    simp [simpleStep, h2]
  rw [exec_step_some (fuel + 1) vm aid [Instruction.update n] 0 _
    (Instruction.update n) _ rfl rfl hstep]
  exact exec_out (fuel + 1) vm aid _ (0 + 1) _ rfl

/-- C2 witness: the amended theorem at `n = 0` on `[Int 1, Int 2]`. -/
theorem claim2_update_witness :
    exec 2 vm0 0 [Instruction.update 0] 0 [Node.int 1, Node.int 2]
      = some ([Node.int 1, Node.int 2].set 1 (Node.ind (Node.int 1))) :=
  claim2_update_indexes_from_bottom 0 vm0 0 0 (Node.int 1) [Node.int 2] (by decide)

/-- C7: when `Unwind` finds a `Combinator` `c` on top and the stack below
holds fewer than `c.arity` entries (the application spine), the frame halts
as a partial application: exactly one node remains, the bottom of the stack
(the root of the original spine). -/
theorem claim7_partial_application {F : Type} [FloatOps F] (fuel : Nat) (vm : VMM F)
    (aid : Nat) (c : SuperCombinator F) (rest : Stack F)
    (h : rest.length < c.arity) :
    exec (fuel + 1) vm aid [Instruction.unwind] 0 (Node.comb c :: rest)
      = some [(Node.comb c :: rest).getLast (List.cons_ne_nil _ _)] := by
  rw [← popToOne_getLast]
  simp only [exec, List.getElem?_cons_zero, h, if_true]
  exact exec_out fuel vm aid _ (0 + 1) _ rfl

/-- C8: executing `Eval` on a non-empty stack, whenever it completes,
replaces the top entry `t` with the single node computed by the `Unwind`
sub-frame on `[t]` (its weak head normal form) and perturbs nothing
beneath: the stack length and every entry below the top are unchanged. -/
theorem claim8_eval_preserves_below {F : Type} [FloatOps F] (fuel : Nat) (vm : VMM F)
    (aid : Nat) (t : Node F) (rest s : Stack F)
    (h : exec (fuel + 1) vm aid [Instruction.eval] 0 (t :: rest) = some s) :
    ∃ x sub, exec fuel vm aid [Instruction.unwind] 0 [t] = some (x :: sub)
      ∧ s = x :: rest := by
  cases hsub : exec fuel vm aid [Instruction.unwind] 0 [t] with
  | none =>
    have : exec (fuel + 1) vm aid [Instruction.eval] 0 (t :: rest) = none := by
      simp [exec, hsub]
    rw [this] at h
    cases h
  | some l =>
    cases l with
    | nil =>
      have : exec (fuel + 1) vm aid [Instruction.eval] 0 (t :: rest) = none := by
        simp [exec, hsub]
      rw [this] at h
      cases h
    | cons x sub =>
      refine ⟨x, sub, rfl, ?_⟩
      have : exec (fuel + 1) vm aid [Instruction.eval] 0 (t :: rest)
          = some (x :: rest) := by
        simp [exec, hsub, exec_out]
      rw [this] at h
      exact (Option.some.inj h).symm

/-- C8 witness: evaluating an `Int` literal on top of `[Int 5, Int 7]`. -/
theorem claim8_eval_witness :
    ∃ x sub, exec 1 vm0 0 [Instruction.unwind] 0 [Node.int 5] = some (x :: sub)
      ∧ [Node.int 5, Node.int 7] = x :: [Node.int 7] :=
  claim8_eval_preserves_below 1 vm0 0 (Node.int 5) [Node.int 7] [Node.int 5, Node.int 7] rfl

/-- Is this node a `Constructor` with tag 1 (the VM's `False`)? -/
def isTagOne {F : Type} : Node F → Bool
  | Node.constr 1 _ => true
  | _ => false

/-- Dispatching `JumpFalse` on a top node that is not a tag-1 constructor
falls through to the next instruction, popping the node. -/
lemma exec_jumpFalse_notOne {F : Type} [FloatOps F] (fuel : Nat) (vm : VMM F)
    (aid : Nat) (code : List (Instruction F)) (i t : Nat) (x : Node F) (rest : Stack F)
    (hc : code[i]? = some (Instruction.jumpFalse t)) (hx : isTagOne x = false) :
    exec (fuel + 1) vm aid code i (x :: rest) = exec fuel vm aid code (i + 1) rest := by
  simp only [exec, hc]
  cases x with
  | constr tag fs =>
    match tag, hx with
    | 0, _ => rfl
    | 1, hx => exact Bool.noConfusion hx
    | (k + 2), _ => rfl
  | app f a => rfl
  | int v => rfl
  | float v => rfl
  | char c => rfl
  | comb c => rfl
  | ind n => rfl
  | dict d => rfl

/-- C10: `JumpFalse(t)` pops exactly one node; it sets the instruction
pointer to `t` if and only if the popped node is a `Constructor` with
tag 1, and otherwise (tag 0, any other tag, or any non-constructor node)
continues at the next instruction without raising an error.  On an empty
stack the run aborts (the borrow of the top precedes the pop). -/
theorem claim10_jumpFalse_pops_one {F : Type} [FloatOps F] (fuel : Nat) (vm : VMM F)
    (aid : Nat) (code : List (Instruction F)) (i t : Nat)
    (hc : code[i]? = some (Instruction.jumpFalse t)) :
    (∀ fs rest, exec (fuel + 1) vm aid code i (Node.constr 1 fs :: rest)
        = exec fuel vm aid code t rest)
    ∧ (∀ (x : Node F) rest, isTagOne x = false →
        exec (fuel + 1) vm aid code i (x :: rest)
          = exec fuel vm aid code (i + 1) rest)
    ∧ exec (fuel + 1) vm aid code i ([] : Stack F) = none := by
  exact ⟨fun fs rest => by simp [exec, hc],
    fun x rest hx => exec_jumpFalse_notOne fuel vm aid code i t x rest hc hx,
    by simp [exec, hc]⟩

/-- C10 witness: `JumpFalse 5` at position 0 of a one-instruction frame,
once on `True` (tag 0: falls through and pops) and once on `False` (tag 1:
jumps to 5, past the end of the frame). -/
theorem claim10_jumpFalse_witness :
    exec 1 vm0 0 [Instruction.jumpFalse 5] 0 [Node.constr 0 [], Node.int 9]
      = exec 0 vm0 0 [Instruction.jumpFalse 5] 1 [Node.int 9]
    ∧ exec 1 vm0 0 [Instruction.jumpFalse 5] 0 [Node.constr 1 [], Node.int 9]
      = exec 0 vm0 0 [Instruction.jumpFalse 5] 5 [Node.int 9] :=
  ⟨(claim10_jumpFalse_pops_one 0 vm0 0 [Instruction.jumpFalse 5] 0 5 rfl).2.1
      (Node.constr 0 []) [Node.int 9] rfl,
   (claim10_jumpFalse_pops_one 0 vm0 0 [Instruction.jumpFalse 5] 0 5 rfl).1
      [] [Node.int 9]⟩

end GM

namespace GM

/-- C7 witness: a combinator of arity 2 atop a single spine node. -/
theorem claim7_partial_witness :
    exec 1 vm0 0 [Instruction.unwind] 0
        [Node.comb ⟨2, "k", 0, []⟩, Node.app (Node.int 1) (Node.int 2)]
      = some [([Node.comb ⟨2, "k", 0, []⟩,
          Node.app (Node.int 1) (Node.int 2)] : Stack ℚ).getLast (List.cons_ne_nil _ _)] :=
  claim7_partial_application 0 vm0 0 ⟨2, "k", 0, []⟩
    [Node.app (Node.int 1) (Node.int 2)] (by decide)

/-- C3, counterexample: `CaseJump` does not jump to an absolute target
offset.  With `code = [CaseJump 5, PushInt 7, PushInt 8]` and a tag-5
constructor on top (the "jump condition applies" under any reading), the
machine SKIPS the next instruction (pointer `0 ↦ 2`) and yields
`[Int 8, Constructor 5]`; resuming at the claimed absolute offset 5 would
instead end the frame with `[Constructor 5]`. -/
theorem claim3_caseJump_cex :
    exec 5 vm0 0 [Instruction.caseJump 5, Instruction.pushInt 7, Instruction.pushInt 8] 0
        [Node.constr 5 []]
      = some [Node.int 8, Node.constr 5 []]
    ∧ exec 4 vm0 0 [Instruction.caseJump 5, Instruction.pushInt 7, Instruction.pushInt 8] 5
        [Node.constr 5 []]
      = some [Node.constr 5 []]
    ∧ exec 5 vm0 0 [Instruction.caseJump 5, Instruction.pushInt 7, Instruction.pushInt 8] 0
        [Node.constr 5 []]
      ≠ exec 4 vm0 0 [Instruction.caseJump 5, Instruction.pushInt 7, Instruction.pushInt 8] 5
        [Node.constr 5 []] := by
  refine ⟨rfl, rfl, ?_⟩
  intro h
  rw [show exec 5 vm0 0 [Instruction.caseJump 5, Instruction.pushInt 7, Instruction.pushInt 8] 0
        [Node.constr 5 []] = some [Node.int 8, Node.constr 5 []] from rfl,
      show exec 4 vm0 0 [Instruction.caseJump 5, Instruction.pushInt 7, Instruction.pushInt 8] 5
        [Node.constr 5 []] = some [Node.constr 5 []] from rfl] at h
  simp at h

/-- C3 (amended): instruction-pointer effects of each dispatched
instruction.  `Jump t` resumes at the absolute offset `t`; `JumpFalse t`
resumes at `t` exactly when the popped node is a tag-1 constructor and at
`i + 1` otherwise; `CaseJump tag` carries a constructor TAG, not an offset:
on a tag match it skips the next instruction (`i + 2`) keeping the
scrutinee, otherwise it pops the scrutinee and continues at `i + 1` (a
non-constructor aborts); `Unwind` either aborts, re-dispatches at the SAME
pointer (application / indirection / completed combinator call), or
continues at `i + 1`; `Eval` and every remaining instruction either abort
or continue at `i + 1`. -/
theorem claim3_ip_effects {F : Type} [FloatOps F] (fuel : Nat) (vm : VMM F) (aid : Nat)
    (code : List (Instruction F)) (i : Nat) :
    (∀ t (stack : Stack F), code[i]? = some (Instruction.jump t) →
      exec (fuel + 1) vm aid code i stack = exec fuel vm aid code t stack)
    ∧ (∀ t fs rest, code[i]? = some (Instruction.jumpFalse t) →
      exec (fuel + 1) vm aid code i (Node.constr 1 fs :: rest)
        = exec fuel vm aid code t rest)
    ∧ (∀ t (x : Node F) rest, code[i]? = some (Instruction.jumpFalse t) →
      isTagOne x = false →
      exec (fuel + 1) vm aid code i (x :: rest) = exec fuel vm aid code (i + 1) rest)
    ∧ (∀ tag ctag fs rest, code[i]? = some (Instruction.caseJump tag) →
      exec (fuel + 1) vm aid code i (Node.constr ctag fs :: rest)
        = if tag = ctag then exec fuel vm aid code (i + 2) (Node.constr ctag fs :: rest)
          else exec fuel vm aid code (i + 1) rest)
    ∧ (∀ stack : Stack F, code[i]? = some Instruction.unwind →
      exec (fuel + 1) vm aid code i stack = none
      ∨ (∃ s2, exec (fuel + 1) vm aid code i stack = exec fuel vm aid code i s2)
      ∨ (∃ s2, exec (fuel + 1) vm aid code i stack = exec fuel vm aid code (i + 1) s2))
    ∧ (∀ stack : Stack F, code[i]? = some Instruction.eval →
      exec (fuel + 1) vm aid code i stack = none
      ∨ (∃ s2, exec (fuel + 1) vm aid code i stack = exec fuel vm aid code (i + 1) s2))
    ∧ (∀ ins (stack : Stack F), code[i]? = some ins → notControl ins = true →
      exec (fuel + 1) vm aid code i stack = none
      ∨ (∃ s2, exec (fuel + 1) vm aid code i stack = exec fuel vm aid code (i + 1) s2)) := by
  refine ⟨fun t stack hc => by simp [exec, hc],
    fun t fs rest hc => by simp [exec, hc],
    fun t x rest hc hx => exec_jumpFalse_notOne fuel vm aid code i t x rest hc hx,
    fun tag ctag fs rest hc => by simp only [exec, hc],
    fun stack hc => ?_, fun stack hc => ?_, fun ins stack hc hns => ?_⟩
  · -- Unwind
    cases stack with
    | nil => exact Or.inl (by simp [exec, hc])
    | cons x rest =>
      cases x with
      | app f a => exact Or.inr (Or.inl ⟨f :: Node.app f a :: rest, by simp [exec, hc]⟩)
      | ind n => exact Or.inr (Or.inl ⟨n :: rest, by simp [exec, hc]⟩)
      | comb c =>
        by_cases har : rest.length < c.arity
        · exact Or.inr (Or.inr ⟨popToOne (Node.comb c :: rest), by simp [exec, hc, har]⟩)
        · cases hga : getArgs c.arity rest with
          | none => exact Or.inl (by simp [exec, hc, har, hga])
          | some args =>
            cases hsub : exec fuel vm c.assembly_id c.instructions 0 args.reverse with
            | none => exact Or.inl (by simp [exec, hc, har, hga, hsub])
            | some l =>
              match l with
              | [] => exact Or.inl (by simp [exec, hc, har, hga, hsub])
              | [res] =>
                exact Or.inr (Or.inl ⟨res :: rest.drop c.arity,
                  by simp [exec, hc, har, hga, hsub]⟩)
              | res :: y :: ys => exact Or.inl (by simp [exec, hc, har, hga, hsub])
      | int v => exact Or.inr (Or.inr ⟨Node.int v :: rest, by simp [exec, hc]⟩)
      | float v => exact Or.inr (Or.inr ⟨Node.float v :: rest, by simp [exec, hc]⟩)
      | char c => exact Or.inr (Or.inr ⟨Node.char c :: rest, by simp [exec, hc]⟩)
      | constr tg fs => exact Or.inr (Or.inr ⟨Node.constr tg fs :: rest, by simp [exec, hc]⟩)
      | dict d => exact Or.inr (Or.inr ⟨Node.dict d :: rest, by simp [exec, hc]⟩)
  · -- Eval
    cases stack with
    | nil => exact Or.inl (by simp [exec, hc])
    | cons t rest =>
      cases hsub : exec fuel vm aid [Instruction.unwind] 0 [t] with
      | none => exact Or.inl (by simp [exec, hc, hsub])
      | some l =>
        match l with
        | [] => exact Or.inl (by simp [exec, hc, hsub])
        | x :: sub => exact Or.inr ⟨x :: rest, by simp [exec, hc, hsub]⟩
  · -- non-control instructions
    rw [exec_step_simple fuel vm aid code i stack ins hc hns]
    cases h2 : simpleStep vm aid ins stack with
    | none => exact Or.inl rfl
    | some s2 => exact Or.inr ⟨s2, rfl⟩

/-- C3 witness: the amended theorem instantiated at a `Jump`, a matching
`CaseJump` and a `PushInt`. -/
theorem claim3_ip_effects_witness :
    exec 1 vm0 0 [Instruction.jump 3] 0 [] = exec 0 vm0 0 [Instruction.jump 3] 3 []
    ∧ exec 1 vm0 0 [Instruction.caseJump 2] 0 [Node.constr 2 []]
      = (if (2 : Nat) = 2 then exec 0 vm0 0 [Instruction.caseJump 2] (0 + 2) [Node.constr 2 []]
         else exec 0 vm0 0 [Instruction.caseJump 2] (0 + 1) [])
    ∧ (exec 1 vm0 0 [Instruction.pushInt 4] 0 [] = none
       ∨ (∃ s2, exec 1 vm0 0 [Instruction.pushInt 4] 0 []
            = exec 0 vm0 0 [Instruction.pushInt 4] (0 + 1) s2)) :=
  ⟨(claim3_ip_effects 0 vm0 0 [Instruction.jump 3] 0).1 3 [] rfl,
   (claim3_ip_effects 0 vm0 0 [Instruction.caseJump 2] 0).2.2.2.1 2 2 [] [] rfl,
   (claim3_ip_effects 0 vm0 0 [Instruction.pushInt 4] 0).2.2.2.2.2.2
     (Instruction.pushInt 4) [] rfl rfl⟩

end GM

namespace GM

/-- The integer closure each two-operand integer instruction passes to
`primitive`/`primitive_int` (`src/vm.rs:143-152`), composed as
`primitive` composes it; `none` for every other instruction. -/
def intBinFn {F : Type} : Instruction F → Option (Int → Int → Option (Node F))
  | .add => some (fun l r => some (Node.int (wrap64 (l + r))))
  | .sub => some (fun l r => some (Node.int (wrap64 (l - r))))
  | .multiply => some (fun l r => some (Node.int (wrap64 (l * r))))
  | .divide => some (fun l r =>
      match intDiv l r with
      | some v => some (Node.int v)
      | none => none)
  | .remainder => some (fun l r =>
      match intRem l r with
      | some v => some (Node.int v)
      | none => none)
  | .intEQ => some (fun l r => some (boolConstr (l = r)))
  | .intLT => some (fun l r => some (boolConstr (l < r)))
  | .intLE => some (fun l r => some (boolConstr (l ≤ r)))
  | .intGT => some (fun l r => some (boolConstr (r < l)))
  | .intGE => some (fun l r => some (boolConstr (r ≤ l)))
  | _ => none

/-- The float closure each two-operand double instruction passes to
`primitive_float` (`src/vm.rs:153-162`); `none` for every other
instruction. -/
def floatBinFn {F : Type} [FloatOps F] : Instruction F → Option (F → F → Node F)
  | .doubleAdd => some (fun l r => Node.float (FloatOps.fadd l r))
  | .doubleSub => some (fun l r => Node.float (FloatOps.fsub l r))
  | .doubleMultiply => some (fun l r => Node.float (FloatOps.fmul l r))
  | .doubleDivide => some (fun l r => Node.float (FloatOps.fdiv l r))
  | .doubleRemainder => some (fun l r => Node.float (FloatOps.frem l r))
  | .doubleEQ => some (fun l r => boolConstr (FloatOps.feq l r))
  | .doubleLT => some (fun l r => boolConstr (FloatOps.flt l r))
  | .doubleLE => some (fun l r => boolConstr (FloatOps.fle l r))
  | .doubleGT => some (fun l r => boolConstr (FloatOps.fgt l r))
  | .doubleGE => some (fun l r => boolConstr (FloatOps.fge l r))
  | _ => none

/-- Is this node an `Int` literal (WHNF of integer kind)? -/
def isIntLit {F : Type} : Node F → Bool
  | Node.int _ => true
  | _ => false

/-- Is this node a `Float` literal (WHNF of double kind)? -/
def isFloatLit {F : Type} : Node F → Bool
  | Node.float _ => true
  | _ => false

/-- A one-instruction frame holding a two-operand integer instruction is
exactly `primitive_int` with that instruction's closure. -/
lemma exec_intBin {F : Type} [FloatOps F] (fuel : Nat) (vm : VMM F) (aid : Nat)
    (ins : Instruction F) (f : Int → Int → Option (Node F)) (stack : Stack F)
    (hf : intBinFn ins = some f) :
    exec (fuel + 1) vm aid [ins] 0 stack = primitive_int stack f := by
  cases ins <;> simp only [intBinFn, Option.some.injEq] at hf <;>
    first
    | exact Option.noConfusion hf
    | (subst hf; exact exec_single _ _ _ _ _ rfl)

/-- A one-instruction frame holding a two-operand double instruction is
exactly `primitive_float` with that instruction's closure. -/
lemma exec_floatBin {F : Type} [FloatOps F] (fuel : Nat) (vm : VMM F) (aid : Nat)
    (ins : Instruction F) (g : F → F → Node F) (stack : Stack F)
    (hg : floatBinFn ins = some g) :
    exec (fuel + 1) vm aid [ins] 0 stack = primitive_float stack g := by
  cases ins <;> simp only [floatBinFn, Option.some.injEq] at hg <;>
    first
    | exact Option.noConfusion hg
    | (subst hg; exact exec_single _ _ _ _ _ rfl)

/-- `primitive_int` on two `Int` literals applies the closure and pushes. -/
lemma primitive_int_lits {F : Type} (f : Int → Int → Option (Node F)) (a b : Int)
    (rest : Stack F) :
    primitive_int (Node.int a :: Node.int b :: rest) f
      = match f a b with
        | some nd => some (nd :: rest)
        | none => none := rfl

/-- `primitive_int` aborts when either popped node is not an `Int`
literal. -/
lemma primitive_int_fails {F : Type} (f : Int → Int → Option (Node F))
    (x y : Node F) (rest : Stack F) (h : (isIntLit x && isIntLit y) = false) :
    primitive_int (x :: y :: rest) f = none := by
  cases x <;> cases y <;> first | rfl | simp [isIntLit] at h

/-- `primitive_float` on two `Float` literals applies the closure and
pushes. -/
lemma primitive_float_lits {F : Type} (g : F → F → Node F) (a b : F)
    (rest : Stack F) :
    primitive_float (Node.float a :: Node.float b :: rest) g
      = some (g a b :: rest) := rfl

/-- `primitive_float` aborts when either popped node is not a `Float`
literal. -/
lemma primitive_float_fails {F : Type} (g : F → F → Node F)
    (x y : Node F) (rest : Stack F) (h : (isFloatLit x && isFloatLit y) = false) :
    primitive_float (x :: y :: rest) g = none := by
  cases x <;> cases y <;> first | rfl | simp [isFloatLit] at h

/-- C9, counterexample: `Divide` on the two `Int` LITERALS `1` (top) and
`0` aborts the run — no result is pushed even though both popped nodes are
in WHNF of the expected kind, so the claim's "pushes the computed result
when both are literals of the expected numeric kind" and its "fails if and
only if either popped node is not in WHNF of the expected kind" are both
false at this input. -/
theorem claim9_divide_cex :
    exec 1 vm0 0 [Instruction.divide] 0 [Node.int 1, Node.int 0, Node.int 9] = none
    ∧ ¬ ∃ s, exec 1 vm0 0 [Instruction.divide] 0 [Node.int 1, Node.int 0, Node.int 9]
        = some s := by
  refine ⟨rfl, ?_⟩
  rintro ⟨s, hs⟩
  rw [show exec 1 vm0 0 [Instruction.divide] 0 [Node.int 1, Node.int 0, Node.int 9] = none
    from rfl] at hs
  cases hs

/-- C9 (amended): every two-operand arithmetic instruction pops exactly two
nodes and, when both are literals of the expected numeric kind, pushes the
single node computed by its closure — except that integer `Divide` and
`Remainder` abort exactly when the divisor (the second popped operand) is
zero or the division is the overflowing `INT_MIN / -1`; each instruction
fails, with nothing pushed, whenever either popped node is not a literal of
the expected kind; everything below the two popped operands is unchanged. -/
theorem claim9_arith_pops_two {F : Type} [FloatOps F] :
    (∀ (fuel : Nat) (vm : VMM F) (aid : Nat) ins f (a b : Int) (rest : Stack F),
      intBinFn ins = some f →
      exec (fuel + 1) vm aid [ins] 0 (Node.int a :: Node.int b :: rest)
        = match f a b with
          | some nd => some (nd :: rest)
          | none => none)
    ∧ (∀ (fuel : Nat) (vm : VMM F) (aid : Nat) ins f (x y : Node F) (rest : Stack F),
      intBinFn ins = some f → (isIntLit x && isIntLit y) = false →
      exec (fuel + 1) vm aid [ins] 0 (x :: y :: rest) = none)
    ∧ (∀ (fuel : Nat) (vm : VMM F) (aid : Nat) ins g (a b : F) (rest : Stack F),
      floatBinFn ins = some g →
      exec (fuel + 1) vm aid [ins] 0 (Node.float a :: Node.float b :: rest)
        = some (g a b :: rest))
    ∧ (∀ (fuel : Nat) (vm : VMM F) (aid : Nat) ins g (x y : Node F) (rest : Stack F),
      floatBinFn ins = some g → (isFloatLit x && isFloatLit y) = false →
      exec (fuel + 1) vm aid [ins] 0 (x :: y :: rest) = none)
    ∧ (∀ a b : Int, (intDiv a b = none ↔ (b = 0 ∨ (a = intMin ∧ b = -1)))
        ∧ (intRem a b = none ↔ (b = 0 ∨ (a = intMin ∧ b = -1))))
    ∧ (∀ ins f, intBinFn (F := F) ins = some f →
        ins ≠ Instruction.divide → ins ≠ Instruction.remainder →
        ∀ a b : Int, (f a b).isSome = true) := by
  refine ⟨fun fuel vm aid ins f a b rest hf => ?_,
    fun fuel vm aid ins f x y rest hf hxy => ?_,
    fun fuel vm aid ins g a b rest hg => ?_,
    fun fuel vm aid ins g x y rest hg hxy => ?_,
    fun a b => ⟨?_, ?_⟩,
    fun ins f hf hd hr a b => ?_⟩
  · rw [exec_intBin fuel vm aid ins f _ hf]
    exact primitive_int_lits f a b rest
  · rw [exec_intBin fuel vm aid ins f _ hf]
    exact primitive_int_fails f x y rest hxy
  · rw [exec_floatBin fuel vm aid ins g _ hg]
    exact primitive_float_lits g a b rest
  · rw [exec_floatBin fuel vm aid ins g _ hg]
    exact primitive_float_fails g x y rest hxy
  · by_cases hcond : (b = 0 ∨ (a = intMin ∧ b = -1)) <;> simp [intDiv, hcond]
  · by_cases hcond : (b = 0 ∨ (a = intMin ∧ b = -1)) <;> simp [intRem, hcond]
  · cases ins <;> simp only [intBinFn, Option.some.injEq] at hf <;>
      first
      | exact Option.noConfusion hf
      | exact absurd rfl hd
      | exact absurd rfl hr
      | (subst hf; rfl)

/-- C9 witness: `Add` on `[Int 2, Int 3, Char c]` pushes `Int 5`; `Add` on
`[Char c, Int 3]` aborts. -/
theorem claim9_arith_witness :
    exec 1 vm0 0 [Instruction.add] 0 [Node.int 2, Node.int 3, Node.char 'c']
      = (match (some (Node.int (wrap64 (2 + 3))) : Option (Node ℚ)) with
         | some nd => some (nd :: [Node.char 'c'])
         | none => none)
    ∧ exec 1 vm0 0 [Instruction.add] 0 [Node.char 'c', Node.int 3] = none :=
  ⟨(claim9_arith_pops_two.1 0 vm0 0 Instruction.add _ 2 3 [Node.char 'c'] rfl),
   (claim9_arith_pops_two.2.1 0 vm0 0 Instruction.add _ (Node.char 'c') (Node.int 3) []
      rfl rfl)⟩

end GM

namespace TC

/-- A class constraint (`module.rs`'s `Constraint { class, variables }`);
`cls` is the class name and `vars` the `variables` vector (both Rust field
names are Lean keywords). -/
structure HConstraint where
  cls : String
  vars : List Int

/-- The part of a `TypeDeclaration` that `add_types` reads: its `context`
of class constraints. -/
structure TypeDeclR where
  context : List HConstraint

/-- The part of the `TypeEnvironment` state touched by `new_var` and
`add_types` (`src/typecheck.rs:78-85`): the fresh-variable counter
`variableIndex` and the constraint map. -/
structure TypeEnvironmentR where
  variableIndex : Int
  constraints : CMap

/-- `TypeEnvironment::new_var` (`src/typecheck.rs:464-467`): increment the
counter and return `Type::new_var` of it. -/
def TypeEnvironmentR.new_var (te : TypeEnvironmentR) : TypeEnvironmentR × Ty :=
  ({ te with variableIndex := te.variableIndex + 1 },
   Ty.mk (TyHead.var (te.variableIndex + 1)) [])

/-- One step of the `add_types` traversal: read `constraint.variables[0]`
(aborting on an empty vector), fold it into the running maximum, and push
the class name onto that variable's constraint list
(`find_or_insert(var, ~[]).push(class)`). -/
def addTypesStep (acc : Option (Int × CMap)) (c : HConstraint) : Option (Int × CMap) :=
  match acc with
  | none => none
  | some (maxId, cs) =>
    match c.vars.head? with
    | none => none
    | some v => some (max v maxId, alInsert cs v ((alFind cs v).getD [] ++ [c.cls]))

/-- `TypeEnvironment::add_types` (`src/typecheck.rs:211-222`): walk every
type declaration's context (in `each_typedeclaration` order), accumulate
`max_id` starting from 0 and extend the constraint map, then ASSIGN
`variableIndex.id = max_id` (the borrowed `Types` value itself is only
pushed onto `assemblies`, which this reduced state omits). -/
def TypeEnvironmentR.add_types (te : TypeEnvironmentR) (decls : List TypeDeclR) :
    Option TypeEnvironmentR :=
  match (decls.flatMap (fun d => d.context)).foldl addTypesStep
      (some (0, te.constraints)) with
  | none => none
  | some (maxId, cs) => some { variableIndex := maxId, constraints := cs }

/-- One step of the running maximum of first constraint variables. -/
def maxIdStep (acc : Option Int) (c : HConstraint) : Option Int :=
  match acc, c.vars.head? with
  | some m, some v => some (max v m)
  | _, _ => none

/-- The maximum (with 0) of the first variable of every constraint in the
declarations' contexts — the value `add_types` assigns to the counter. -/
def maxCtxId (decls : List TypeDeclR) : Option Int :=
  (decls.flatMap (fun d => d.context)).foldl maxIdStep (some 0)

lemma foldl_addTypesStep_none (l : List HConstraint) :
    l.foldl addTypesStep none = none := by
  induction l with
  | nil => rfl
  | cons c cs ih => simpa [addTypesStep] using ih

lemma foldl_maxIdStep_none (l : List HConstraint) :
    l.foldl maxIdStep none = none := by
  induction l with
  | nil => rfl
  | cons c cs ih => simpa [maxIdStep] using ih

/-- The first component of the `add_types` fold is the running maximum. -/
lemma foldl_addTypesStep_fst (l : List HConstraint) (m : Int) (cs : CMap) :
    (l.foldl addTypesStep (some (m, cs))).map Prod.fst = l.foldl maxIdStep (some m) := by
  induction l generalizing m cs with
  | nil => rfl
  | cons c rest ih =>
    cases hv : c.vars.head? with
    | none =>
      simp [List.foldl, addTypesStep, maxIdStep, hv,
        foldl_addTypesStep_none, foldl_maxIdStep_none]
    | some v => simp [List.foldl, addTypesStep, maxIdStep, hv, ih]

/-- The initial environment of `TypeEnvironment::new` restricted to the
counter and constraint map: counter 0, no constraints. -/
def te0 : TypeEnvironmentR := { variableIndex := 0, constraints := [] }

/-- C5, counterexample: allocate two fresh variables (ids 1 and 2), then
register an assembly whose declarations carry no constraints
(`add_types` sets the counter to `max_id = 0`); the next fresh variable is
id 1 again, which is NOT strictly larger than the previously-allocated
id 2. -/
theorem claim5_counter_reset_cex :
    te0.new_var.1.new_var.2 = tv 2
    ∧ te0.new_var.1.new_var.1.add_types [] = some te0
    ∧ (te0.new_var.1.new_var.1.add_types []).map (fun te => te.new_var.2) = some (tv 1)
    ∧ ¬ ((1 : Int) > 2) :=
  ⟨rfl, rfl, rfl, by decide⟩

/-- C5 (amended): `new_var` always returns the variable with id
`counter + 1` and stores that id back, so ids increase strictly across any
sequence of operations NOT containing `add_types`; but `add_types` ASSIGNS
the counter to the maximum (taken with 0) of the first constraint-variable
ids of the registered declarations, which may be smaller than
previously-allocated ids, allowing later `new_var` calls to reuse them. -/
theorem claim5_fresh_vars :
    (∀ te : TypeEnvironmentR,
      te.new_var.2 = tv (te.variableIndex + 1)
      ∧ te.new_var.1.variableIndex = te.variableIndex + 1)
    ∧ (∀ (te : TypeEnvironmentR) (decls : List TypeDeclR) (te2 : TypeEnvironmentR),
      te.add_types decls = some te2 → maxCtxId decls = some te2.variableIndex) := by
  refine ⟨fun te => ⟨rfl, rfl⟩, fun te decls te2 h => ?_⟩
  unfold TypeEnvironmentR.add_types at h
  cases hf : (decls.flatMap (fun d => d.context)).foldl addTypesStep
      (some (0, te.constraints)) with
  | none => rw [hf] at h; cases h
  | some p =>
    rw [hf] at h
    obtain ⟨m, cs⟩ := p
    cases h
    have h2 := foldl_addTypesStep_fst (decls.flatMap (fun d => d.context)) 0 te.constraints
    rw [hf] at h2
    exact h2.symm

/-- C5 witness: the amended theorem at the initial environment and an empty
declaration list. -/
theorem claim5_fresh_vars_witness :
    (te0.new_var.2 = tv 1 ∧ te0.new_var.1.variableIndex = 1)
    ∧ maxCtxId [] = some 0 :=
  ⟨claim5_fresh_vars.1 te0,
   claim5_fresh_vars.2 te0.new_var.1.new_var.1 [] te0 rfl⟩

/-- C4: unification is NOT symmetric — a genuine defect.  With class `C`
(no instances) constrained on variable 2, let
`a = (v1, v1)` and `b = (v2, Int)`.  `unify(a, b)` binds `v1 ↦ v2`,
rewrites the second components to `(v2, Int)`, and fails with "no instance
C Int" when binding `v2 ↦ Int` (v2 still carries `C`).  `unify(b, a)`
binds `v2 ↦ v1` and POPS v2's constraints into the substitution's
constraint map (`src/typecheck.rs:844-846`); they are only re-attached
when an occurrence of v2 is rewritten (`update_constraints`), which never
happens here, so binding `v1 ↦ Int` sees no constraints and SUCCEEDS: one
direction fails, the other succeeds, accepting a missing instance.  The
same holds through `unify_location`. -/
theorem claim4_unify_asymmetric :
    unifyT 30 stC (top "(,)" [tv 1, tv 1]) (top "(,)" [tv 2, top "Int" []]) = none
    ∧ (unifyT 30 stC (top "(,)" [tv 2, top "Int" []]) (top "(,)" [tv 1, tv 1])).isSome = true
    ∧ unifyLoc 30 stC (top "(,)" [tv 1, tv 1]) (top "(,)" [tv 2, top "Int" []]) = none
    ∧ (unifyLoc 30 stC (top "(,)" [tv 2, top "Int" []]) (top "(,)" [tv 1, tv 1])).isSome
        = true :=
  ⟨rfl, rfl, rfl, rfl⟩

/-- The state after unifying `v2` with `v1` under `stC`: v2's constraint
`C` has been removed from the environment's constraint map (it survives
only in the substitution's constraint map, which no instance check ever
consults directly). -/
def stAfterVarVar : TcState :=
  { envConstraints := [], instances := [], subs := [(2, tv 1)],
    subsConstraints := [(2, ["C"])] }

/-- The state after the subsequent `unify(v1, Int)`. -/
def stAfterInt : TcState :=
  { envConstraints := [], instances := [], subs := [(2, tv 1), (1, top "Int" [])],
    subsConstraints := [(2, ["C"])] }

/-- C6: constraint propagation is NOT monotone — a genuine defect.
Variable 2 carries class `C` in `stC`.  Unifying `v2` with `v1`
(a typechecking step) removes `C` from the environment's constraint map
(`env.constraints.pop(lid)`, `src/typecheck.rs:844-846`) without attaching
it to `v1`; the follow-up step unifying `v1` with `Int` then SUCCEEDS even
though no instance `C Int` exists, so `v2` has been substituted (via `v1`)
by a type that was never required to satisfy `C`.  The repo's own test
`typecheck_constraints_no_instance` shows a missing instance is meant to
fail. -/
theorem claim6_constraint_dropped :
    unifyT 30 stC (tv 2) (tv 1) = some (stAfterVarVar, tv 2, tv 1)
    ∧ stAfterVarVar.envConstraints = []
    ∧ unifyT 30 stAfterVarVar (tv 1) (top "Int" [])
        = some (stAfterInt, tv 1, top "Int" []) :=
  ⟨rfl, rfl, rfl⟩

end TC
